import Mathlib

/-!
# Verification of the `fractal_core` Mandelbrot engine

A shallow embedding of `mandelbrot.go` (package `fractal_core`).  Go
`float64`/`complex128` values are modelled as `ℝ`/`ℂ` (exact real
arithmetic standing in for double precision); Go `int` configuration
values that are only meaningfully non-negative (`width`, `height`,
`maxIterations`, pixel indices, iteration counts) are modelled as `ℕ`.
Go slices indexed by pixel or iteration count are modelled as total
functions; `Generate`'s goroutine fan-out is serialized in spawn order
(the race on the shared histogram is modelled separately, see
`racyStep`).  Float division results that are non-finite in IEEE
arithmetic (`0/0` is NaN) are modelled by `Option ℝ`, `none` standing
for a non-finite value.
-/

/-- `const DefaultZoomLevel = 0.5` (mandelbrot.go:9). -/
noncomputable def DefaultZoomLevel : ℝ := 0.5

/-- `const DefaultMaxIterations = 1000` (mandelbrot.go:10). -/
def DefaultMaxIterations : ℕ := 1000

/-- `const mandelbrotEscapeRadius = 2.0` (mandelbrot.go:11). -/
noncomputable def mandelbrotEscapeRadius : ℝ := 2.0

/-- The `Mandelbrot` struct (mandelbrot.go:13-23).  `buffer` (`[][]uint32`),
`histogram` (`[]uint32`) and `hue` (`[][]float64`) are modelled as total
functions; `hue` entries are `Option ℝ` with `none` for non-finite
float64 values. -/
structure Mandelbrot where
  ImageWidth : ℕ
  ImageHeight : ℕ
  center : ℂ
  zoomLevel : ℝ
  maxIterations : ℕ
  buffer : ℕ → ℕ → ℕ
  minX : ℝ
  minY : ℝ
  maxX : ℝ
  maxY : ℝ
  histogram : ℕ → ℕ
  hue : ℕ → ℕ → Option ℝ

/-- `func SetMaxIterations(m *Mandelbrot, i int)` (mandelbrot.go:142-147):
stores the bound and remakes (zeroes) the histogram. -/
def SetMaxIterations (m : Mandelbrot) (i : ℕ) : Mandelbrot :=
  { m with maxIterations := i, histogram := fun _ => 0 }

/-- `func SetZoom(m *Mandelbrot, z float64)` (mandelbrot.go:105-119). -/
noncomputable def SetZoom (m : Mandelbrot) (z : ℝ) : Mandelbrot :=
  let offset : ℝ := 1.0 / z
  let stretch : ℝ := (m.ImageHeight : ℝ) / (m.ImageWidth : ℝ)
  { m with
    zoomLevel := z
    minX := m.center.re - offset
    maxX := m.center.re + offset
    minY := m.center.im - offset * stretch
    maxY := m.center.im + offset * stretch }

/-- `func SetCenter(m *Mandelbrot, center complex128)` (mandelbrot.go:101-103).
Note: it stores the center only; the bounds are not recomputed. -/
def SetCenter (m : Mandelbrot) (center : ℂ) : Mandelbrot :=
  { m with center := center }

/-- `func ScaleZoom(m *Mandelbrot, scale float64)` (mandelbrot.go:121-123). -/
noncomputable def ScaleZoom (m : Mandelbrot) (scale : ℝ) : Mandelbrot :=
  SetZoom m (m.zoomLevel * scale)

/-- `func Create(width, height int, center complex128)` (mandelbrot.go:25-40):
zero-valued struct fields, then `SetMaxIterations`, then `SetZoom` with the
defaults, then the pixel buffer is allocated (all zeroes). -/
noncomputable def Create (width height : ℕ) (center : ℂ) : Mandelbrot :=
  let m : Mandelbrot :=
    { ImageWidth := width, ImageHeight := height, center := center
      zoomLevel := 0, maxIterations := 0, buffer := fun _ _ => 0
      minX := 0, minY := 0, maxX := 0, maxY := 0
      histogram := fun _ => 0, hue := fun _ _ => some 0 }
  let m := SetMaxIterations m DefaultMaxIterations
  let m := SetZoom m DefaultZoomLevel
  { m with buffer := fun _ _ => 0 }

/-- `func GetBounds(m *Mandelbrot)` (mandelbrot.go:126-128): returns
`(minX, minY, maxX, maxY)`. -/
noncomputable def GetBounds (m : Mandelbrot) : ℝ × ℝ × ℝ × ℝ :=
  (m.minX, m.minY, m.maxX, m.maxY)

/-- `func GetBuffer` (mandelbrot.go:130-132). -/
def GetBuffer (m : Mandelbrot) : ℕ → ℕ → ℕ := m.buffer

/-- `func GetZoom` (mandelbrot.go:134-136). -/
noncomputable def GetZoom (m : Mandelbrot) : ℝ := m.zoomLevel

/-- `func GetMaxIterations` (mandelbrot.go:138-140). -/
def GetMaxIterations (m : Mandelbrot) : ℕ := m.maxIterations

/-- `func GetHistogram` (mandelbrot.go:149-151). -/
def GetHistogram (m : Mandelbrot) : ℕ → ℕ := m.histogram

/-- `func GetHue` (mandelbrot.go:153-155). -/
def GetHue (m : Mandelbrot) : ℕ → ℕ → Option ℝ := m.hue

/-!
## The unsynchronized histogram increment (mandelbrot.go:71)

Each goroutine spawned by `Generate` executes `m.histogram[iterations]++`
with no synchronization.  That statement is a read-modify-write: load the
slot, add one, store.  Two goroutines whose pixels share the same
iteration count race on the same slot.  `racyStep` models two such
goroutines, each a two-step program (pc 0: load the slot into a private
register; pc 1: store register+1 back), driven by an interleaving
schedule (`true` steps goroutine 1, `false` steps goroutine 2).
-/

structure RacyState where
  slot : ℕ
  reg1 : ℕ
  pc1 : ℕ
  reg2 : ℕ
  pc2 : ℕ

def racyInit : RacyState := ⟨0, 0, 0, 0, 0⟩

def racyStep (s : RacyState) (g : Bool) : RacyState :=
  if g then
    if s.pc1 = 0 then { s with reg1 := s.slot, pc1 := 1 }
    else if s.pc1 = 1 then { s with slot := s.reg1 + 1, pc1 := 2 }
    else s
  else
    if s.pc2 = 0 then { s with reg2 := s.slot, pc2 := 1 }
    else if s.pc2 = 1 then { s with slot := s.reg2 + 1, pc2 := 2 }
    else s

/-- Run two unsynchronized increments of the same histogram slot under a
given interleaving schedule. -/
def racyRun (sched : List Bool) : RacyState :=
  sched.foldl racyStep racyInit

/-!
## The escape-time evaluator (`pointInSet`, mandelbrot.go:160-216)
-/

/-- `func pointInCardioid(a, b float64) bool` (mandelbrot.go:208-212). -/
noncomputable def pointInCardioid (a b : ℝ) : Prop :=
  let p := Real.sqrt ((a - 0.25) ^ 2 + b ^ 2)
  a ≤ p - 2 * p ^ 2 + 0.25

/-- `func pointInPeriod2Bulb(a, b float64) bool` (mandelbrot.go:214-216). -/
def pointInPeriod2Bulb (a b : ℝ) : Prop :=
  (a + 1) ^ 2 + b ^ 2 ≤ (1 : ℝ) / 16

noncomputable instance (a b : ℝ) : Decidable (pointInCardioid a b) :=
  Real.decidableLE _ _

noncomputable instance (a b : ℝ) : Decidable (pointInPeriod2Bulb a b) :=
  Real.decidableLE _ _

/-- The `for` loop of `pointInSet` (mandelbrot.go:185-202), as a recursion
on the remaining iteration budget `fuel`, carrying the loop index `i` and
the mutable locals `curr`, `last0`, `last1`.  Each step computes
`curr = cmplx.Pow(curr, 2) + val`, returns `maxIterations` when the new
value equals `last0` or `last1`, returns `i` when its absolute value
exceeds the escape radius, and otherwise shifts the history and
continues; falling off the loop returns `maxIterations`
(mandelbrot.go:205). -/
noncomputable def pisLoop (val : ℂ) (maxIterations : ℕ) :
    ℕ → ℕ → ℂ → ℂ → ℂ → ℕ
  | 0, _, _, _, _ => maxIterations
  | fuel + 1, i, curr, last0, last1 =>
    let c2 := curr ^ 2 + val
    if c2 = last0 ∨ c2 = last1 then maxIterations
    else if mandelbrotEscapeRadius < Complex.abs c2 then i
    else pisLoop val maxIterations fuel (i + 1) c2 c2 last0

/-- `func pointInSet(val complex128, maxIterations int) int`
(mandelbrot.go:160-206): shortcut through the cardioid/bulb tests, else
run the iteration loop from `curr = last0 = last1 = 0`, `i = 0`. -/
noncomputable def pointInSet (val : ℂ) (maxIterations : ℕ) : ℕ :=
  let x := val.re
  let y := val.im
  if pointInCardioid x y ∨ pointInPeriod2Bulb x y then maxIterations
  else pisLoop val maxIterations maxIterations 0 0 0 0

/-- The exact orbit `z₀ = 0`, `zₙ₊₁ = zₙ² + c` that the loop follows. -/
noncomputable def orbit (c : ℂ) : ℕ → ℂ
  | 0 => 0
  | n + 1 => orbit c n ^ 2 + c

/-- At loop step `i` the newly computed iterate `zᵢ₊₁` equals one of the
two immediately preceding iterates (`last0 = zᵢ`, `last1 = zᵢ₋₁`; both
are `z₀ = 0` at step 0). -/
def cycleFire (c : ℂ) (i : ℕ) : Prop :=
  orbit c (i + 1) = orbit c i ∨ orbit c (i + 1) = orbit c (i - 1)

/-- At loop step `i` the newly computed iterate exceeds the escape
radius. -/
noncomputable def escapeFire (c : ℂ) (i : ℕ) : Prop :=
  mandelbrotEscapeRadius < Complex.abs (orbit c (i + 1))

/-- Loop step `i` returns early (by cycle detection or by escape). -/
noncomputable def fires (c : ℂ) (i : ℕ) : Prop := cycleFire c i ∨ escapeFire c i

/-!
## The grid generator (`Generate`, mandelbrot.go:42-99)
-/

/-- Modelled from the spec: `MapIntToFloat` is called by `Generate`
(mandelbrot.go:55-56) but defined in a repository file that is not
present; per the spec's CoordinateMapper contract, `mapLinear(x, inLow,
inHigh, outLow, outHigh)` returns `outLow` when `x = inLow`, `outHigh`
when `x = inHigh`, and is affine in between. -/
noncomputable def MapIntToFloat (x inLow inHigh : ℕ) (outLow outHigh : ℝ) : ℝ :=
  outLow + ((x : ℝ) - (inLow : ℝ)) * (outHigh - outLow) / ((inHigh : ℝ) - (inLow : ℝ))

/-- The complex number a pixel is mapped to (mandelbrot.go:55-59). -/
noncomputable def pixelPoint (m : Mandelbrot) (x y : ℕ) : ℂ :=
  ⟨MapIntToFloat x 0 m.ImageWidth m.minX m.maxX,
   MapIntToFloat y 0 m.ImageHeight m.minY m.maxY⟩

/-- The pixel coordinates visited by `Generate`'s nested loops
(mandelbrot.go:52-53), in spawn order: `x` outer, `y` inner. -/
def pixels (W H : ℕ) : List (ℕ × ℕ) :=
  (List.range W).flatMap fun x => (List.range H).map fun y => (x, y)

/-- Point update of the pixel buffer (`m.buffer[x][y] = ...`). -/
def updateGrid (g : ℕ → ℕ → ℕ) (x y v : ℕ) : ℕ → ℕ → ℕ :=
  fun a b => if a = x ∧ b = y then v else g a b

/-- The iteration count computed for a pixel (mandelbrot.go:64). -/
noncomputable def itersOf (m : Mandelbrot) (p : ℕ × ℕ) : ℕ :=
  pointInSet (pixelPoint m p.1 p.2) m.maxIterations

/-- The body of one goroutine of `Generate` (mandelbrot.go:63-75),
serialized: store the count in the buffer, and increment
`histogram[iterations]` when the count differs from `maxIterations`. -/
noncomputable def generatePixel (acc : Mandelbrot) (p : ℕ × ℕ) : Mandelbrot :=
  let iterations := itersOf acc p
  { acc with
    buffer := updateGrid acc.buffer p.1 p.2 iterations
    histogram :=
      if iterations ≠ acc.maxIterations
      then Function.update acc.histogram iterations
        (acc.histogram iterations + 1)
      else acc.histogram }

/-- `total`, the sum of the histogram slots `0 .. maxIterations-1`
(mandelbrot.go:81-86). -/
def histTotal (m : Mandelbrot) : ℕ :=
  ∑ i ∈ Finset.range m.maxIterations, m.histogram i

/-- float64 division of two counts (`float64(histogram[i]) /
float64(total)`, mandelbrot.go:94); dividing by zero yields a non-finite
value, modelled as `none`. -/
noncomputable def fdiv (a b : ℕ) : Option ℝ :=
  if b = 0 then none else some ((a : ℝ) / (b : ℝ))

/-- float64 addition on possibly non-finite values: a non-finite operand
contaminates the sum. -/
noncomputable def fadd : Option ℝ → Option ℝ → Option ℝ
  | some a, some b => some (a + b)
  | _, _ => none

/-- The hue accumulation loop for one pixel (mandelbrot.go:92-95):
starting from `0.0`, add `histogram[i]/total` for `i = 0 .. v-1` where
`v` is the pixel's stored iteration count. -/
noncomputable def hueVal (hist : ℕ → ℕ) (total v : ℕ) : Option ℝ :=
  (List.range v).foldl (fun acc i => fadd acc (fdiv (hist i) total)) (some 0)

/-- The spec's hue formula (HistogramColorMapper): the cumulative
normalized histogram mass strictly below the pixel's iteration count,
`Σ_{i<v} histogram[i]/total`, as an exact real number. -/
noncomputable def hueFormula (hist : ℕ → ℕ) (total v : ℕ) : ℝ :=
  ∑ i ∈ Finset.range v, (hist i : ℝ) / (total : ℝ)

/-- The allocations at the top of `Generate` (mandelbrot.go:43-48):
remake the histogram (`make([]uint32, maxIterations)`, all zeroes) and
the hue storage (all zeroes). -/
noncomputable def genReset (m : Mandelbrot) : Mandelbrot :=
  { m with histogram := fun _ => 0, hue := fun _ _ => some 0 }

/-- Phase 1 of `Generate` (mandelbrot.go:52-79): evaluate every pixel,
writing the buffer and incrementing the histogram, up to the `WaitGroup`
barrier (serialized here in spawn order). -/
noncomputable def genPhase1 (m : Mandelbrot) : Mandelbrot :=
  (pixels m.ImageWidth m.ImageHeight).foldl generatePixel (genReset m)

/-- `func Generate(m *Mandelbrot)` (mandelbrot.go:42-99): after phase 1
completes, sum the histogram into `total` and compute each pixel's hue
from its stored count (mandelbrot.go:81-97). -/
noncomputable def Generate (m : Mandelbrot) : Mandelbrot :=
  let m1 := genPhase1 m
  { m1 with hue := fun x y => hueVal m1.histogram (histTotal m1) (m1.buffer x y) }

/-- A 1×1 view whose single pixel maps to the origin (inside the main
cardioid), with `maxIterations = 1`: every pixel reaches the bound, so
the generated histogram total is 0. -/
noncomputable def viewAllInSet : Mandelbrot :=
  SetMaxIterations (Create 1 1 ⟨2, 2⟩) 1

/-- A 1×1 view whose single pixel maps to `10 - 2i` (far outside the
set), with `maxIterations = 1`: the pixel escapes at iteration 0, so the
generated histogram total is 1. -/
noncomputable def viewEscaping : Mandelbrot :=
  SetMaxIterations (Create 1 1 ⟨12, 0⟩) 1

/-!
## Theorems
-/

/-- C1: the per-pixel histogram increments `m.histogram[iterations]++`
(mandelbrot.go:71) are unsynchronized reads-modify-writes from concurrent
goroutines.  Two increments of the same slot yield 2 under the sequential
interleaving but only 1 under the overlapped interleaving, with both
goroutines having run to completion: the total is not exact and not
deterministic, contradicting the spec's determinism requirement. -/
theorem c1_unsynchronized_histogram_race :
    (racyRun [true, true, false, false]).slot = 2 ∧
    (racyRun [true, true, false, false]).pc1 = 2 ∧
    (racyRun [true, true, false, false]).pc2 = 2 ∧
    (racyRun [true, false, true, false]).slot = 1 ∧
    (racyRun [true, false, true, false]).pc1 = 2 ∧
    (racyRun [true, false, true, false]).pc2 = 2 := by
  refine ⟨rfl, rfl, rfl, rfl, rfl, rfl⟩

/-- C2: `SetCenter` stores the new center but does not recompute the
bounds (mandelbrot.go:101-103).  After `Create(1, 1, 0)` (zoom 0.5, so
offset 2, bounds centered on 0) followed by `SetCenter(view, 5+0i)`,
`minX` is still -2, whereas consistency with the last-set center would
require `minX = Re(center) - 1/zoom = 5 - 2 = 3`. -/
theorem c2_setCenter_leaves_bounds_stale :
    (SetCenter (Create 1 1 ⟨0, 0⟩) ⟨5, 0⟩).minX = -2 ∧
    (SetCenter (Create 1 1 ⟨0, 0⟩) ⟨5, 0⟩).center.re -
      1 / (SetCenter (Create 1 1 ⟨0, 0⟩) ⟨5, 0⟩).zoomLevel = 3 ∧
    (SetCenter (Create 1 1 ⟨0, 0⟩) ⟨5, 0⟩).minX ≠
      (SetCenter (Create 1 1 ⟨0, 0⟩) ⟨5, 0⟩).center.re -
        1 / (SetCenter (Create 1 1 ⟨0, 0⟩) ⟨5, 0⟩).zoomLevel := by
  refine ⟨?_, ?_, ?_⟩ <;>
    simp [SetCenter, Create, SetZoom, SetMaxIterations, DefaultZoomLevel,
      DefaultMaxIterations] <;> norm_num

/-- C3: no configuration validation exists anywhere in the code: `Create`
accepts width = height = 0, `SetZoom` accepts zoom = 0 and `SetMaxIterations`
accepts bound = 0, each returning a configured view normally (the Go
functions have no error results at all), contradicting the claimed
`InvalidDimension` / `InvalidZoom` / `InvalidIterationBound` failures. -/
theorem c3_no_configuration_validation :
    (Create 0 0 ⟨0, 0⟩).ImageWidth = 0 ∧
    (Create 0 0 ⟨0, 0⟩).ImageHeight = 0 ∧
    (SetZoom (Create 1 1 ⟨0, 0⟩) 0).zoomLevel = 0 ∧
    (SetMaxIterations (Create 1 1 ⟨0, 0⟩) 0).maxIterations = 0 := by
  refine ⟨rfl, rfl, rfl, rfl⟩

/-- C7: for any view and any zoom `z > 0`, `SetZoom` recomputes and
`GetBounds` returns exactly `(cx - 1/z, cy - (1/z)·(H/W), cx + 1/z,
cy + (1/z)·(H/W))` (mandelbrot.go:105-119, 126-128). -/
theorem c7_setZoom_bounds (m : Mandelbrot) (z : ℝ) (hz : 0 < z) :
    GetBounds (SetZoom m z) =
      (m.center.re - 1 / z,
       m.center.im - (1 / z) * ((m.ImageHeight : ℝ) / (m.ImageWidth : ℝ)),
       m.center.re + 1 / z,
       m.center.im + (1 / z) * ((m.ImageHeight : ℝ) / (m.ImageWidth : ℝ))) := by
  simp [GetBounds, SetZoom]
  norm_num

/-- Witness for C7 at `Create(1, 1, 0)` and `z = 2`. -/
theorem c7_setZoom_bounds_witness :
    (0 : ℝ) < 2 ∧
    GetBounds (SetZoom (Create 1 1 ⟨0, 0⟩) 2) =
      (-(1 / 2 : ℝ), -(1 / 2 : ℝ), (1 / 2 : ℝ), (1 / 2 : ℝ)) := by
  refine ⟨by norm_num, ?_⟩
  have h := c7_setZoom_bounds (Create 1 1 ⟨0, 0⟩) 2 (by norm_num)
  rw [h]
  norm_num [Create, SetZoom, SetMaxIterations, DefaultZoomLevel,
    DefaultMaxIterations, Prod.ext_iff]

lemma pisLoop_succ (val : ℂ) (N fuel i : ℕ) (curr l0 l1 : ℂ) :
    pisLoop val N (fuel + 1) i curr l0 l1 =
      if curr ^ 2 + val = l0 ∨ curr ^ 2 + val = l1 then N
      else if mandelbrotEscapeRadius < Complex.abs (curr ^ 2 + val) then i
      else pisLoop val N fuel (i + 1) (curr ^ 2 + val) (curr ^ 2 + val) l0 :=
  rfl

lemma orbit_succ (c : ℂ) (n : ℕ) : orbit c (n + 1) = orbit c n ^ 2 + c := rfl

lemma orbit_zero (c : ℂ) : orbit c 0 = 0 := rfl

/-- The loop's result is either `maxIterations` or a loop index reached
within the budget. -/
lemma pisLoop_le (val : ℂ) (N : ℕ) :
    ∀ fuel i curr l0 l1, pisLoop val N fuel i curr l0 l1 = N ∨
      (i ≤ pisLoop val N fuel i curr l0 l1 ∧
        pisLoop val N fuel i curr l0 l1 < i + fuel) := by
  intro fuel
  induction fuel with
  | zero => intro i curr l0 l1; exact Or.inl rfl
  | succ fuel ih =>
    intro i curr l0 l1
    rw [pisLoop_succ]
    by_cases h1 : curr ^ 2 + val = l0 ∨ curr ^ 2 + val = l1
    · rw [if_pos h1]; exact Or.inl rfl
    · rw [if_neg h1]
      by_cases h2 : mandelbrotEscapeRadius < Complex.abs (curr ^ 2 + val)
      · rw [if_pos h2]; right; omega
      · rw [if_neg h2]
        rcases ih (i + 1) (curr ^ 2 + val) (curr ^ 2 + val) l0 with h | ⟨h3, h4⟩
        · exact Or.inl h
        · right; omega

/-- If no step in the budget window fires, the loop runs to the end and
returns `maxIterations`. -/
lemma pisLoop_quiet (c : ℂ) (N : ℕ) :
    ∀ fuel i, (∀ k, i ≤ k → k < i + fuel → ¬ fires c k) →
      pisLoop c N fuel i (orbit c i) (orbit c i) (orbit c (i - 1)) = N := by
  intro fuel
  induction fuel with
  | zero => intro i _; rfl
  | succ fuel ih =>
    intro i hq
    have hfi : ¬ fires c i := hq i le_rfl (by omega)
    have hcyc : ¬ cycleFire c i := fun h => hfi (Or.inl h)
    have hesc : ¬ escapeFire c i := fun h => hfi (Or.inr h)
    have hcyc' : ¬ (orbit c (i + 1) = orbit c i ∨
        orbit c (i + 1) = orbit c (i - 1)) := hcyc
    have hesc' : ¬ mandelbrotEscapeRadius < Complex.abs (orbit c (i + 1)) := hesc
    rw [pisLoop_succ, ← orbit_succ, if_neg hcyc', if_neg hesc']
    rw [show orbit c i = orbit c ((i + 1) - 1) by simp]
    exact ih (i + 1) (fun k hk1 hk2 => hq k (by omega) (by omega))

/-- If step `j` is the first firing step inside the budget, the loop
returns `maxIterations` when it fires by cycle detection and returns `j`
when it fires by escape only. -/
lemma pisLoop_fire (c : ℂ) (N : ℕ) :
    ∀ fuel i j, i ≤ j → j < i + fuel →
      (∀ k, i ≤ k → k < j → ¬ fires c k) → fires c j →
      (cycleFire c j →
        pisLoop c N fuel i (orbit c i) (orbit c i) (orbit c (i - 1)) = N) ∧
      (¬ cycleFire c j →
        pisLoop c N fuel i (orbit c i) (orbit c i) (orbit c (i - 1)) = j) := by
  intro fuel
  induction fuel with
  | zero => intro i j h1 h2 _ _; omega
  | succ fuel ih =>
    intro i j hij hjlt hq hfj
    rcases eq_or_lt_of_le hij with rfl | hlt
    · constructor
      · intro hcyc
        have hcyc' : orbit c (i + 1) = orbit c i ∨
            orbit c (i + 1) = orbit c (i - 1) := hcyc
        rw [pisLoop_succ, ← orbit_succ, if_pos hcyc']
      · intro hncyc
        have hesc : escapeFire c i := hfj.resolve_left hncyc
        have hncyc' : ¬ (orbit c (i + 1) = orbit c i ∨
            orbit c (i + 1) = orbit c (i - 1)) := hncyc
        have hesc' : mandelbrotEscapeRadius < Complex.abs (orbit c (i + 1)) := hesc
        rw [pisLoop_succ, ← orbit_succ, if_neg hncyc', if_pos hesc']
    · have hfi : ¬ fires c i := hq i le_rfl hlt
      have hcyc' : ¬ (orbit c (i + 1) = orbit c i ∨
          orbit c (i + 1) = orbit c (i - 1)) := fun h => hfi (Or.inl h)
      have hesc' : ¬ mandelbrotEscapeRadius < Complex.abs (orbit c (i + 1)) :=
        fun h => hfi (Or.inr h)
      rw [pisLoop_succ, ← orbit_succ, if_neg hcyc', if_neg hesc']
      rw [show orbit c i = orbit c ((i + 1) - 1) by simp]
      exact ih (i + 1) j (by omega) (by omega)
        (fun k hk1 hk2 => hq k (by omega) hk2) hfj

lemma pointInSet_shortcut (c : ℂ) (N : ℕ)
    (h : pointInCardioid c.re c.im ∨ pointInPeriod2Bulb c.re c.im) :
    pointInSet c N = N := by
  unfold pointInSet
  rw [if_pos h]

lemma pointInSet_no_shortcut (c : ℂ) (N : ℕ)
    (h : ¬ (pointInCardioid c.re c.im ∨ pointInPeriod2Bulb c.re c.im)) :
    pointInSet c N = pisLoop c N N 0 0 0 0 := by
  unfold pointInSet
  rw [if_neg h]

/-- `pointInSet` never returns more than `maxIterations`. -/
lemma pointInSet_le (c : ℂ) (N : ℕ) : pointInSet c N ≤ N := by
  by_cases h : pointInCardioid c.re c.im ∨ pointInPeriod2Bulb c.re c.im
  · rw [pointInSet_shortcut c N h]
  · rw [pointInSet_no_shortcut c N h]
    rcases pisLoop_le c N N 0 0 0 0 with h1 | ⟨_, h2⟩
    · omega
    · omega

/-- Any point in the main cardioid test region has real part at most
3/8 (the quadratic `p - 2p² + 1/4` never exceeds 3/8). -/
lemma cardioid_re_le (a b : ℝ) (h : pointInCardioid a b) : a ≤ 3 / 8 := by
  have hp : (0 : ℝ) ≤ Real.sqrt ((a - 0.25) ^ 2 + b ^ 2) := Real.sqrt_nonneg _
  have h' : a ≤ Real.sqrt ((a - 0.25) ^ 2 + b ^ 2) -
      2 * Real.sqrt ((a - 0.25) ^ 2 + b ^ 2) ^ 2 + 0.25 := h
  nlinarith [sq_nonneg (Real.sqrt ((a - 0.25) ^ 2 + b ^ 2) - 1 / 4)]

lemma not_cardioid_of_re_gt (a b : ℝ) (h : 3 / 8 < a) :
    ¬ pointInCardioid a b :=
  fun hc => absurd (cardioid_re_le a b hc) (not_le.2 h)

/-- The origin lies in the main cardioid test region. -/
lemma cardioid_origin : pointInCardioid 0 0 := by
  have hs : Real.sqrt (((0 : ℝ) - 0.25) ^ 2 + (0 : ℝ) ^ 2) = 1 / 4 := by
    rw [show (((0 : ℝ) - 0.25) ^ 2 + (0 : ℝ) ^ 2) = (1 / 4 : ℝ) ^ 2 by norm_num]
    exact Real.sqrt_sq (by norm_num)
  show (0 : ℝ) ≤ Real.sqrt (((0 : ℝ) - 0.25) ^ 2 + (0 : ℝ) ^ 2) -
    2 * Real.sqrt (((0 : ℝ) - 0.25) ^ 2 + (0 : ℝ) ^ 2) ^ 2 + 0.25
  rw [hs]
  norm_num

/-- C8: points passing the cardioid or period-2-bulb test short-circuit to
`maxIterations` (mandelbrot.go:168-170); in particular `0 + 0i` (main
cardioid) and `-1 + 0i` (period-2 bulb) evaluate to `maxIterations` for
every positive bound. -/
theorem c8_shortcut_regions :
    (∀ (a b : ℝ) (N : ℕ), 0 < N →
        (pointInCardioid a b ∨ pointInPeriod2Bulb a b) →
        pointInSet ⟨a, b⟩ N = N) ∧
    (∀ N : ℕ, 0 < N → pointInSet ⟨0, 0⟩ N = N) ∧
    (∀ N : ℕ, 0 < N → pointInSet ⟨-1, 0⟩ N = N) := by
  refine ⟨?_, ?_, ?_⟩
  · intro a b N _ h
    exact pointInSet_shortcut ⟨a, b⟩ N h
  · intro N _
    exact pointInSet_shortcut _ N (Or.inl cardioid_origin)
  · intro N _
    refine pointInSet_shortcut _ N (Or.inr ?_)
    show ((-1 : ℝ) + 1) ^ 2 + (0 : ℝ) ^ 2 ≤ (1 : ℝ) / 16
    norm_num

/-- Witness for C8: `evaluate(-1 + 0i, 3) = 3` via the period-2 bulb. -/
theorem c8_shortcut_regions_witness : pointInSet ⟨-1, 0⟩ 3 = 3 :=
  c8_shortcut_regions.2.2 3 (by norm_num)

/-- C4: outside the shortcut regions and for a positive bound, the
evaluator follows the orbit `z₀ = 0`, `zₙ₊₁ = zₙ² + c`; its result is at
most `maxIterations`; it returns `maxIterations` when no loop step fires
within the bound; and at the first firing step `j` it returns
`maxIterations` when the new iterate repeats one of the two preceding
iterates (cycle detection, checked first) and the 0-based index `j` when
`|z_{j+1}|` exceeds the escape radius. -/
theorem c4_evaluate_characterization (c : ℂ) (N : ℕ) (hN : 0 < N)
    (hs : ¬ (pointInCardioid c.re c.im ∨ pointInPeriod2Bulb c.re c.im)) :
    pointInSet c N ≤ N ∧
    ((∀ i, i < N → ¬ fires c i) → pointInSet c N = N) ∧
    (∀ j, j < N → (∀ k, k < j → ¬ fires c k) → fires c j →
      (cycleFire c j → pointInSet c N = N) ∧
      (¬ cycleFire c j → pointInSet c N = j)) := by
  refine ⟨pointInSet_le c N, ?_, ?_⟩
  · intro hq
    rw [pointInSet_no_shortcut c N hs]
    exact pisLoop_quiet c N N 0 (fun k _ hk2 => hq k (by omega))
  · intro j hj hq hfj
    have h := pisLoop_fire c N N 0 j (by omega) (by omega)
      (fun k _ hk2 => hq k hk2) hfj
    rw [pointInSet_no_shortcut c N hs]
    exact h

/-- The point `3 + 0i` passes neither shortcut test. -/
lemma noShortcut_three :
    ¬ (pointInCardioid (3 : ℝ) 0 ∨ pointInPeriod2Bulb (3 : ℝ) 0) := by
  rintro (h | h)
  · exact absurd (cardioid_re_le 3 0 h) (by norm_num)
  · have h' : ((3 : ℝ) + 1) ^ 2 + (0 : ℝ) ^ 2 ≤ (1 : ℝ) / 16 := h
    norm_num at h'

/-- Witness for C4 at `c = 3 + 0i`, `maxIterations = 1`. -/
theorem c4_evaluate_characterization_witness :
    ((0 : ℕ) < 1 ∧
      ¬ (pointInCardioid (3 : ℝ) 0 ∨ pointInPeriod2Bulb (3 : ℝ) 0)) ∧
    (pointInSet ⟨3, 0⟩ 1 ≤ 1 ∧
     ((∀ i, i < 1 → ¬ fires ⟨3, 0⟩ i) → pointInSet ⟨3, 0⟩ 1 = 1) ∧
     (∀ j, j < 1 → (∀ k, k < j → ¬ fires ⟨3, 0⟩ k) → fires ⟨3, 0⟩ j →
       (cycleFire ⟨3, 0⟩ j → pointInSet ⟨3, 0⟩ 1 = 1) ∧
       (¬ cycleFire ⟨3, 0⟩ j → pointInSet ⟨3, 0⟩ 1 = j))) :=
  ⟨⟨by norm_num, noShortcut_three⟩,
    c4_evaluate_characterization ⟨3, 0⟩ 1 (by norm_num) noShortcut_three⟩

/-- If `|c| > 2` (and no shortcut applies) the very first loop step
escapes: the first computed iterate is `0² + c = c` itself. -/
lemma pisLoop_first_escape (c : ℂ) (N : ℕ) (hc0 : c ≠ 0)
    (habs : mandelbrotEscapeRadius < Complex.abs c) :
    ∀ fuel, pisLoop c N (fuel + 1) 0 0 0 0 = 0 := by
  intro fuel
  have h0 : (0 : ℂ) ^ 2 + c = c := by ring
  have hne : ¬ (c = (0 : ℂ) ∨ c = (0 : ℂ)) := by simp [hc0]
  rw [pisLoop_succ, h0, if_neg hne, if_pos habs]

/-- C10: for any `c` with `|c| > 2` outside both shortcut regions and any
positive bound, `pointInSet` returns 0, because the first computed
iterate `z₁ = 0² + c = c` already exceeds the escape radius. -/
theorem c10_outside_escape_radius (c : ℂ) (N : ℕ)
    (habs : 2 < Complex.abs c)
    (hs : ¬ (pointInCardioid c.re c.im ∨ pointInPeriod2Bulb c.re c.im))
    (hN : 0 < N) :
    pointInSet c N = 0 ∧ orbit c 1 = c := by
  have habs' : mandelbrotEscapeRadius < Complex.abs c := by
    rw [show mandelbrotEscapeRadius = (2 : ℝ) by norm_num [mandelbrotEscapeRadius]]
    exact habs
  have hc0 : c ≠ 0 := by
    intro h
    rw [h, map_zero] at habs
    norm_num at habs
  constructor
  · rw [pointInSet_no_shortcut c N hs]
    obtain ⟨n, rfl⟩ : ∃ n, N = n + 1 := ⟨N - 1, by omega⟩
    exact pisLoop_first_escape c (n + 1) hc0 habs' n
  · rw [orbit_succ, orbit_zero]
    ring

lemma abs_three_zero : Complex.abs ⟨3, 0⟩ = 3 := by
  rw [Complex.abs_apply, Complex.normSq_mk]
  rw [show (3 : ℝ) * 3 + 0 * 0 = 3 ^ 2 by norm_num]
  exact Real.sqrt_sq (by norm_num)

/-- Witness for C10 at `c = 3 + 0i`, `maxIterations = 7`. -/
theorem c10_outside_escape_radius_witness :
    (2 < Complex.abs (⟨3, 0⟩ : ℂ) ∧
     ¬ (pointInCardioid (3 : ℝ) 0 ∨ pointInPeriod2Bulb (3 : ℝ) 0) ∧
     (0 : ℕ) < 7) ∧
    (pointInSet ⟨3, 0⟩ 7 = 0 ∧ orbit ⟨3, 0⟩ 1 = ⟨3, 0⟩) :=
  ⟨⟨by rw [abs_three_zero]; norm_num, noShortcut_three, by norm_num⟩,
    c10_outside_escape_radius ⟨3, 0⟩ 7 (by rw [abs_three_zero]; norm_num)
      noShortcut_three (by norm_num)⟩

lemma itersOf_le (m : Mandelbrot) (p : ℕ × ℕ) :
    itersOf m p ≤ m.maxIterations := pointInSet_le _ _

lemma itersOf_generatePixel (acc : Mandelbrot) (p q : ℕ × ℕ) :
    itersOf (generatePixel acc p) q = itersOf acc q := rfl

lemma foldl_generatePixel_maxIterations (L : List (ℕ × ℕ)) :
    ∀ acc : Mandelbrot,
      (L.foldl generatePixel acc).maxIterations = acc.maxIterations := by
  induction L with
  | nil => intro acc; rfl
  | cons q L ih => intro acc; rw [List.foldl_cons, ih]; rfl

lemma foldl_buffer_not_mem (L : List (ℕ × ℕ)) :
    ∀ (acc : Mandelbrot) (p : ℕ × ℕ), p ∉ L →
      (L.foldl generatePixel acc).buffer p.1 p.2 = acc.buffer p.1 p.2 := by
  induction L with
  | nil => intro acc p _; rfl
  | cons q L ih =>
    intro acc p hp
    have hpq : p ≠ q := fun h => hp (h ▸ List.mem_cons_self q L)
    have hpL : p ∉ L := fun h => hp (List.mem_cons_of_mem q h)
    rw [List.foldl_cons, ih _ p hpL]
    show updateGrid acc.buffer q.1 q.2 (itersOf acc q) p.1 p.2 = acc.buffer p.1 p.2
    simp only [updateGrid]
    rw [if_neg (fun hcon => hpq (Prod.ext hcon.1 hcon.2))]

/-- Every occurrence of a pixel in the work list stores the same value, so
after the fold the buffer holds that pixel's iteration count. -/
lemma foldl_buffer_mem (L : List (ℕ × ℕ)) :
    ∀ (acc : Mandelbrot) (p : ℕ × ℕ), p ∈ L →
      (L.foldl generatePixel acc).buffer p.1 p.2 = itersOf acc p := by
  induction L with
  | nil => intro acc p hp; exact absurd hp (List.not_mem_nil p)
  | cons q L ih =>
    intro acc p hp
    by_cases hpL : p ∈ L
    · rw [List.foldl_cons, ih _ p hpL, itersOf_generatePixel]
    · have hpq : p = q := by
        rcases List.mem_cons.1 hp with h | h
        · exact h
        · exact absurd h hpL
      subst hpq
      rw [List.foldl_cons, foldl_buffer_not_mem L _ p hpL]
      show updateGrid acc.buffer p.1 p.2 (itersOf acc p) p.1 p.2 = itersOf acc p
      simp [updateGrid]

lemma histTotal_update (h : ℕ → ℕ) (M j : ℕ) (hj : j < M) :
    ∑ i ∈ Finset.range M, Function.update h j (h j + 1) i =
      (∑ i ∈ Finset.range M, h i) + 1 := by
  rw [Finset.sum_update_of_mem (Finset.mem_range.2 hj), ← Finset.erase_eq]
  have h2 := Finset.add_sum_erase (Finset.range M) h (Finset.mem_range.2 hj)
  omega

lemma histTotal_generatePixel (acc : Mandelbrot) (p : ℕ × ℕ) :
    histTotal (generatePixel acc p) =
      if itersOf acc p ≠ acc.maxIterations
      then histTotal acc + 1 else histTotal acc := by
  by_cases hq : itersOf acc p ≠ acc.maxIterations
  · rw [if_pos hq]
    have hlt : itersOf acc p < acc.maxIterations :=
      lt_of_le_of_ne (itersOf_le acc p) hq
    show (∑ i ∈ Finset.range acc.maxIterations,
        (if itersOf acc p ≠ acc.maxIterations
         then Function.update acc.histogram (itersOf acc p)
           (acc.histogram (itersOf acc p) + 1)
         else acc.histogram) i) = histTotal acc + 1
    rw [if_pos hq]
    exact histTotal_update acc.histogram acc.maxIterations (itersOf acc p) hlt
  · rw [if_neg hq]
    show (∑ i ∈ Finset.range acc.maxIterations,
        (if itersOf acc p ≠ acc.maxIterations
         then Function.update acc.histogram (itersOf acc p)
           (acc.histogram (itersOf acc p) + 1)
         else acc.histogram) i) = histTotal acc
    rw [if_neg hq]
    rfl

/-- Folding phase 1 over a pixel list adds one histogram count per pixel
whose iteration count differs from the bound. -/
lemma histTotal_foldl (L : List (ℕ × ℕ)) :
    ∀ acc : Mandelbrot, histTotal (L.foldl generatePixel acc) =
      histTotal acc +
        (L.filter (fun p => itersOf acc p ≠ acc.maxIterations)).length := by
  induction L with
  | nil => intro acc; simp
  | cons q L ih =>
    intro acc
    rw [List.foldl_cons, ih (generatePixel acc q)]
    have hfilter : L.filter
        (fun p => itersOf (generatePixel acc q) p ≠
          (generatePixel acc q).maxIterations) =
        L.filter (fun p => itersOf acc p ≠ acc.maxIterations) := rfl
    rw [hfilter, histTotal_generatePixel]
    by_cases hq : itersOf acc q ≠ acc.maxIterations
    · rw [if_pos hq]
      simp only [List.filter_cons]
      rw [if_pos (decide_eq_true hq)]
      simp only [List.length_cons]
      omega
    · rw [if_neg hq]
      simp only [List.filter_cons]
      rw [if_neg (by simpa using hq)]

lemma pixels_length (W H : ℕ) : (pixels W H).length = W * H := by
  rw [pixels, List.length_flatMap]
  have hmap : List.map (List.length ∘ fun x => (List.range H).map fun y => (x, y))
      (List.range W) = List.replicate W H := by
    rw [show (List.length ∘ fun x => (List.range H).map fun y => (x, y)) =
        Function.const ℕ H by funext x; simp]
    rw [List.map_const, List.length_range]
  rw [hmap, List.sum_replicate, smul_eq_mul]

lemma mem_pixels (W H x y : ℕ) : (x, y) ∈ pixels W H ↔ x < W ∧ y < H := by
  simp [pixels, List.mem_flatMap, List.mem_map, List.mem_range, Prod.ext_iff]

lemma histTotal_Generate (m : Mandelbrot) :
    histTotal (Generate m) = histTotal (genPhase1 m) := rfl

lemma Generate_buffer (m : Mandelbrot) :
    (Generate m).buffer = (genPhase1 m).buffer := rfl

lemma Generate_maxIterations (m : Mandelbrot) :
    (Generate m).maxIterations = m.maxIterations := by
  show (genPhase1 m).maxIterations = m.maxIterations
  rw [genPhase1, foldl_generatePixel_maxIterations]
  rfl

lemma histTotal_genReset (m : Mandelbrot) : histTotal (genReset m) = 0 := by
  simp [histTotal, genReset]

/-- C6: after `Generate`, the sum of all histogram slots equals the number
of grid pixels whose stored iteration count differs from `maxIterations`,
and is therefore at most `width × height` (mandelbrot.go:63-79). -/
theorem c6_histogram_sum (m : Mandelbrot) :
    histTotal (Generate m) =
      ((pixels m.ImageWidth m.ImageHeight).filter
        (fun p => (Generate m).buffer p.1 p.2 ≠ (Generate m).maxIterations)).length ∧
    histTotal (Generate m) ≤ m.ImageWidth * m.ImageHeight := by
  have hbuf : ∀ p ∈ pixels m.ImageWidth m.ImageHeight,
      (Generate m).buffer p.1 p.2 = itersOf (genReset m) p := by
    intro p hp
    rw [Generate_buffer]
    exact foldl_buffer_mem _ _ p hp
  have hmax : (Generate m).maxIterations = (genReset m).maxIterations :=
    Generate_maxIterations m
  have hfeq : (pixels m.ImageWidth m.ImageHeight).filter
        (fun p => (Generate m).buffer p.1 p.2 ≠ (Generate m).maxIterations) =
      (pixels m.ImageWidth m.ImageHeight).filter
        (fun p => itersOf (genReset m) p ≠ (genReset m).maxIterations) := by
    apply List.filter_congr
    intro p hp
    simp only [decide_eq_decide]
    rw [hbuf p hp, hmax]
  have h1 : histTotal (Generate m) =
      ((pixels m.ImageWidth m.ImageHeight).filter
        (fun p => itersOf (genReset m) p ≠ (genReset m).maxIterations)).length := by
    rw [histTotal_Generate, genPhase1, histTotal_foldl, histTotal_genReset,
      Nat.zero_add]
  constructor
  · rw [hfeq, h1]
  · calc histTotal (Generate m)
        = _ := h1
      _ ≤ (pixels m.ImageWidth m.ImageHeight).length :=
        List.length_filter_le _ _
      _ = m.ImageWidth * m.ImageHeight := pixels_length _ _

lemma hueVal_zero (hist : ℕ → ℕ) (total : ℕ) : hueVal hist total 0 = some 0 := rfl

lemma hueVal_succ (hist : ℕ → ℕ) (total v : ℕ) :
    hueVal hist total (v + 1) =
      fadd (hueVal hist total v) (fdiv (hist v) total) := by
  simp only [hueVal, List.range_succ, List.foldl_append, List.foldl_cons,
    List.foldl_nil]

/-- With a nonzero total, the hue loop computes exactly the spec's
cumulative-histogram formula (and stays finite). -/
lemma hueVal_eq_some (hist : ℕ → ℕ) (total : ℕ) (ht : total ≠ 0) :
    ∀ v, hueVal hist total v = some (hueFormula hist total v) := by
  intro v
  induction v with
  | zero =>
    rw [hueVal_zero]
    simp [hueFormula]
  | succ v ih =>
    rw [hueVal_succ, ih, fdiv, if_neg ht]
    show some (hueFormula hist total v + (hist v : ℝ) / (total : ℝ)) = _
    rw [hueFormula, hueFormula, Finset.sum_range_succ]

lemma hueFormula_nonneg (hist : ℕ → ℕ) (total v : ℕ) :
    0 ≤ hueFormula hist total v := by
  apply Finset.sum_nonneg
  intro i _
  positivity

lemma hueFormula_mono (hist : ℕ → ℕ) (total : ℕ) :
    ∀ v w, v ≤ w → hueFormula hist total v ≤ hueFormula hist total w := by
  intro v w hvw
  apply Finset.sum_le_sum_of_subset_of_nonneg (Finset.range_subset.2 hvw)
  intro i _ _
  positivity

lemma hueFormula_le_one (hist : ℕ → ℕ) (M total v : ℕ) (hv : v ≤ M)
    (htot : total = ∑ i ∈ Finset.range M, hist i) (ht : total ≠ 0) :
    hueFormula hist total v ≤ 1 := by
  have h1 : ∑ i ∈ Finset.range v, hist i ≤ total := by
    rw [htot]
    exact Finset.sum_le_sum_of_subset (Finset.range_subset.2 hv)
  have h0 : (0 : ℝ) < (total : ℝ) := by
    exact_mod_cast Nat.pos_of_ne_zero ht
  rw [hueFormula, ← Finset.sum_div, div_le_one h0]
  exact_mod_cast h1

lemma pixelPoint_genReset (m : Mandelbrot) (x y : ℕ) :
    pixelPoint (genReset m) x y = pixelPoint m x y := rfl

lemma genReset_maxIterations (m : Mandelbrot) :
    (genReset m).maxIterations = m.maxIterations := rfl

lemma pointInSet_genReset_buffer (m : Mandelbrot) (x y : ℕ)
    (hx : x < m.ImageWidth) (hy : y < m.ImageHeight) :
    (Generate m).buffer x y = itersOf (genReset m) (x, y) := by
  rw [Generate_buffer]
  exact foldl_buffer_mem _ _ (x, y) ((mem_pixels _ _ x y).2 ⟨hx, hy⟩)

/-- C5 (amended): whenever the generated histogram total is positive, the
hue of each grid pixel is exactly the spec formula
`Σ_{i<count} histogram[i]/total`, it lies in `[0,1]`, and the formula is
non-decreasing in the pixel's iteration count (mandelbrot.go:81-97). -/
theorem c5_hue_formula (m : Mandelbrot) (x y : ℕ)
    (hx : x < m.ImageWidth) (hy : y < m.ImageHeight)
    (ht : 0 < histTotal (Generate m)) :
    GetHue (Generate m) x y =
      some (hueFormula (Generate m).histogram (histTotal (Generate m))
        ((Generate m).buffer x y)) ∧
    (∃ r, GetHue (Generate m) x y = some r ∧ 0 ≤ r ∧ r ≤ 1) ∧
    (∀ v w, v ≤ w →
      hueFormula (Generate m).histogram (histTotal (Generate m)) v ≤
      hueFormula (Generate m).histogram (histTotal (Generate m)) w) := by
  have ht' : histTotal (genPhase1 m) ≠ 0 := by
    rw [← histTotal_Generate]
    omega
  have hGet : GetHue (Generate m) x y =
      hueVal (genPhase1 m).histogram (histTotal (genPhase1 m))
        ((genPhase1 m).buffer x y) := rfl
  have heq : GetHue (Generate m) x y =
      some (hueFormula (Generate m).histogram (histTotal (Generate m))
        ((Generate m).buffer x y)) := by
    rw [hGet, hueVal_eq_some _ _ ht']
    rfl
  have hvle : (Generate m).buffer x y ≤ (genPhase1 m).maxIterations := by
    rw [pointInSet_genReset_buffer m x y hx hy]
    calc itersOf (genReset m) (x, y) ≤ (genReset m).maxIterations :=
        itersOf_le _ _
      _ = (genPhase1 m).maxIterations := by
        rw [genPhase1, foldl_generatePixel_maxIterations]
  refine ⟨heq, ⟨hueFormula (Generate m).histogram (histTotal (Generate m))
      ((Generate m).buffer x y), heq, hueFormula_nonneg _ _ _, ?_⟩,
    hueFormula_mono _ _⟩
  apply hueFormula_le_one _ (genPhase1 m).maxIterations _ _ hvle
  · rfl
  · omega

lemma viewAllInSet_minX : viewAllInSet.minX = 0 := by
  show (⟨2, 2⟩ : ℂ).re - 1.0 / DefaultZoomLevel = 0
  norm_num [DefaultZoomLevel]

lemma viewAllInSet_maxX : viewAllInSet.maxX = 4 := by
  show (⟨2, 2⟩ : ℂ).re + 1.0 / DefaultZoomLevel = 4
  norm_num [DefaultZoomLevel]

lemma viewAllInSet_minY : viewAllInSet.minY = 0 := by
  show (⟨2, 2⟩ : ℂ).im -
    1.0 / DefaultZoomLevel * (((1 : ℕ) : ℝ) / ((1 : ℕ) : ℝ)) = 0
  norm_num [DefaultZoomLevel]

lemma viewAllInSet_maxY : viewAllInSet.maxY = 4 := by
  show (⟨2, 2⟩ : ℂ).im +
    1.0 / DefaultZoomLevel * (((1 : ℕ) : ℝ) / ((1 : ℕ) : ℝ)) = 4
  norm_num [DefaultZoomLevel]

lemma pixelPoint_viewAllInSet : pixelPoint viewAllInSet 0 0 = ⟨0, 0⟩ := by
  rw [pixelPoint, show viewAllInSet.ImageWidth = 1 from rfl,
    show viewAllInSet.ImageHeight = 1 from rfl, viewAllInSet_minX,
    viewAllInSet_maxX, viewAllInSet_minY, viewAllInSet_maxY]
  simp only [Complex.mk.injEq]
  norm_num [MapIntToFloat]

lemma itersOf_viewAllInSet : itersOf (genReset viewAllInSet) (0, 0) = 1 := by
  show pointInSet (pixelPoint (genReset viewAllInSet) 0 0)
    (genReset viewAllInSet).maxIterations = 1
  rw [pixelPoint_genReset, pixelPoint_viewAllInSet]
  exact pointInSet_shortcut ⟨0, 0⟩ _ (Or.inl cardioid_origin)

lemma genPhase1_viewAllInSet :
    genPhase1 viewAllInSet = generatePixel (genReset viewAllInSet) (0, 0) := rfl

lemma histTotal_viewAllInSet : histTotal (Generate viewAllInSet) = 0 := by
  rw [histTotal_Generate, genPhase1_viewAllInSet, histTotal_generatePixel]
  rw [if_neg (by rw [itersOf_viewAllInSet]; exact fun h => h rfl)]
  exact histTotal_genReset viewAllInSet

lemma buffer_viewAllInSet : (Generate viewAllInSet).buffer 0 0 = 1 := by
  rw [Generate_buffer, genPhase1_viewAllInSet]
  show updateGrid (genReset viewAllInSet).buffer 0 0
    (itersOf (genReset viewAllInSet) (0, 0)) 0 0 = 1
  rw [itersOf_viewAllInSet]
  simp [updateGrid]

lemma hue_viewAllInSet : GetHue (Generate viewAllInSet) 0 0 = none := by
  show hueVal (genPhase1 viewAllInSet).histogram
    (histTotal (genPhase1 viewAllInSet)) ((genPhase1 viewAllInSet).buffer 0 0) =
    none
  have hb : (genPhase1 viewAllInSet).buffer 0 0 = 1 := buffer_viewAllInSet
  have htot : histTotal (genPhase1 viewAllInSet) = 0 := histTotal_viewAllInSet
  rw [hb, htot, hueVal_succ, hueVal_zero, fdiv, if_pos rfl]
  rfl

/-- C9: on the valid 1×1 configuration `viewAllInSet` every pixel reaches
`maxIterations`, so the histogram total is 0 and the hue loop executes
`histogram[i]/total` with no guard: the pixel's hue is the non-finite
float64 value 0/0 (NaN, modelled as `none`), not a real number in
`[0,1]`. -/
theorem c9_hue_division_by_zero_total :
    histTotal (Generate viewAllInSet) = 0 ∧
    (Generate viewAllInSet).buffer 0 0 = viewAllInSet.maxIterations ∧
    GetHue (Generate viewAllInSet) 0 0 = none :=
  ⟨histTotal_viewAllInSet, buffer_viewAllInSet, hue_viewAllInSet⟩

/-- Counterexample to C5 as stated: on `viewAllInSet` (total = 0) the
generated hue of pixel (0,0) is not the value of the cumulative-histogram
formula — it is the non-finite result of dividing by a zero total — so it
does not lie in `[0,1]`. -/
theorem c5_counterexample_total_zero :
    GetHue (Generate viewAllInSet) 0 0 ≠
      some (hueFormula (Generate viewAllInSet).histogram
        (histTotal (Generate viewAllInSet))
        ((Generate viewAllInSet).buffer 0 0)) := by
  rw [hue_viewAllInSet]
  simp

lemma viewEscaping_minX : viewEscaping.minX = 10 := by
  show (⟨12, 0⟩ : ℂ).re - 1.0 / DefaultZoomLevel = 10
  norm_num [DefaultZoomLevel]

lemma viewEscaping_maxX : viewEscaping.maxX = 14 := by
  show (⟨12, 0⟩ : ℂ).re + 1.0 / DefaultZoomLevel = 14
  norm_num [DefaultZoomLevel]

lemma viewEscaping_minY : viewEscaping.minY = -2 := by
  show (⟨12, 0⟩ : ℂ).im -
    1.0 / DefaultZoomLevel * (((1 : ℕ) : ℝ) / ((1 : ℕ) : ℝ)) = -2
  norm_num [DefaultZoomLevel]

lemma viewEscaping_maxY : viewEscaping.maxY = 2 := by
  show (⟨12, 0⟩ : ℂ).im +
    1.0 / DefaultZoomLevel * (((1 : ℕ) : ℝ) / ((1 : ℕ) : ℝ)) = 2
  norm_num [DefaultZoomLevel]

lemma pixelPoint_viewEscaping : pixelPoint viewEscaping 0 0 = ⟨10, -2⟩ := by
  rw [pixelPoint, show viewEscaping.ImageWidth = 1 from rfl,
    show viewEscaping.ImageHeight = 1 from rfl, viewEscaping_minX,
    viewEscaping_maxX, viewEscaping_minY, viewEscaping_maxY]
  simp only [Complex.mk.injEq]
  norm_num [MapIntToFloat]

lemma noShortcut_ten : ¬ (pointInCardioid (10 : ℝ) (-2) ∨
    pointInPeriod2Bulb (10 : ℝ) (-2)) := by
  rintro (h | h)
  · exact absurd (cardioid_re_le _ _ h) (by norm_num)
  · have h' : ((10 : ℝ) + 1) ^ 2 + (-2 : ℝ) ^ 2 ≤ (1 : ℝ) / 16 := h
    norm_num at h'

lemma abs_ten_neg_two : mandelbrotEscapeRadius < Complex.abs ⟨10, -2⟩ := by
  rw [show mandelbrotEscapeRadius = (2 : ℝ) by
    norm_num [mandelbrotEscapeRadius]]
  rw [Complex.abs_apply, Complex.normSq_mk]
  rw [show (10 : ℝ) * 10 + (-2) * (-2) = 104 by norm_num]
  rw [show (2 : ℝ) = Real.sqrt 4 by
    rw [show (4 : ℝ) = 2 ^ 2 by norm_num, Real.sqrt_sq (by norm_num)]]
  exact Real.sqrt_lt_sqrt (by norm_num) (by norm_num)

lemma itersOf_viewEscaping : itersOf (genReset viewEscaping) (0, 0) = 0 := by
  show pointInSet (pixelPoint (genReset viewEscaping) 0 0)
    (genReset viewEscaping).maxIterations = 0
  rw [pixelPoint_genReset, pixelPoint_viewEscaping]
  have hc0 : (⟨10, -2⟩ : ℂ) ≠ 0 := by
    intro h
    have h' : ((10 : ℝ) = 0) := congrArg Complex.re h
    norm_num at h'
  rw [pointInSet_no_shortcut _ _ noShortcut_ten]
  exact pisLoop_first_escape ⟨10, -2⟩ 1 hc0 abs_ten_neg_two 0

lemma genPhase1_viewEscaping :
    genPhase1 viewEscaping = generatePixel (genReset viewEscaping) (0, 0) := rfl

lemma histTotal_viewEscaping : histTotal (Generate viewEscaping) = 1 := by
  rw [histTotal_Generate, genPhase1_viewEscaping, histTotal_generatePixel]
  rw [if_pos (by rw [itersOf_viewEscaping]; exact Nat.zero_ne_one)]
  rw [histTotal_genReset]

/-- Witness for C5 (amended) on `viewEscaping`, whose histogram total
is 1. -/
theorem c5_hue_formula_witness :
    ((0 : ℕ) < viewEscaping.ImageWidth ∧ (0 : ℕ) < viewEscaping.ImageHeight ∧
     0 < histTotal (Generate viewEscaping)) ∧
    (GetHue (Generate viewEscaping) 0 0 =
       some (hueFormula (Generate viewEscaping).histogram
         (histTotal (Generate viewEscaping))
         ((Generate viewEscaping).buffer 0 0)) ∧
     (∃ r, GetHue (Generate viewEscaping) 0 0 = some r ∧ 0 ≤ r ∧ r ≤ 1) ∧
     (∀ v w, v ≤ w →
       hueFormula (Generate viewEscaping).histogram
         (histTotal (Generate viewEscaping)) v ≤
       hueFormula (Generate viewEscaping).histogram
         (histTotal (Generate viewEscaping)) w)) := by
  have h1 : (0 : ℕ) < viewEscaping.ImageWidth := Nat.one_pos
  have h2 : (0 : ℕ) < viewEscaping.ImageHeight := Nat.one_pos
  have h3 : 0 < histTotal (Generate viewEscaping) := by
    rw [histTotal_viewEscaping]
    norm_num
  exact ⟨⟨h1, h2, h3⟩, c5_hue_formula viewEscaping 0 0 h1 h2 h3⟩
